import Mathlib

/-!
Verification of the streaming chat client of the POCs repository
(`MFE-Vite/remote-app-vite`): the frame decoder and event parser of
`chatStreamApi` in `src/app/services/api.js`, and the reducers of the chat
slice in `src/app/reducers/chatSlice.js`.

Strings of the JavaScript program are modelled as `List Char`; the bytes
delivered by the HTTP reader are modelled as `List Nat` (each entry < 256).
The platform pieces the code calls — `TextDecoder("utf-8")` with
`{stream: true}`, `String.prototype.split`, `String.prototype.replace`,
`JSON.parse`, `String.prototype.trim` — are embedded as executable Lean
functions following their specified behaviour.
-/

set_option maxHeartbeats 1000000

/-! ## `buffer.split("\n\n")`

`splitOnTerm` models `String.prototype.split` applied to the fixed separator
`"\n\n"`: leftmost, non-overlapping matches, returning the (always nonempty)
list of segments between matches. -/

def splitOnTerm : List Char → List (List Char)
  | [] => [[]]
  | [c] => [[c]]
  | c1 :: c2 :: rest =>
    if c1 = '\n' ∧ c2 = '\n' then
      [] :: splitOnTerm rest
    else
      match splitOnTerm (c2 :: rest) with
      | [] => [[c1]]
      | s :: ss => (c1 :: s) :: ss

/-! ## `TextDecoder("utf-8").decode(value, {stream: true})`

A streaming UTF-8 decoder in the style of the WHATWG Encoding standard.  The
decoder state is the list of bytes of the currently incomplete sequence
(empty, or a lead byte followed by up to two valid continuation bytes).  A
malformed byte emits U+FFFD and, when it arrived in the middle of a sequence,
is reprocessed as the start of a fresh sequence. -/

def contByte (b : Nat) : Bool := 0x80 ≤ b && b ≤ 0xBF

/-- Range restriction for the byte following a lead byte (E0/ED/F0/F4 have
narrowed ranges so that overlong encodings, surrogates and values above
U+10FFFF are rejected). -/
def cont2OK (lead b : Nat) : Bool :=
  if lead = 0xE0 then 0xA0 ≤ b && b ≤ 0xBF
  else if lead = 0xED then 0x80 ≤ b && b ≤ 0x9F
  else if lead = 0xF0 then 0x90 ≤ b && b ≤ 0xBF
  else if lead = 0xF4 then 0x80 ≤ b && b ≤ 0x8F
  else contByte b

def replChar : Char := Char.ofNat 0xFFFD

/-- Decode one byte arriving with no pending sequence. -/
def utf8Fresh (b : Nat) : List Nat × List Char :=
  if b ≤ 0x7F then ([], [Char.ofNat b])
  else if b < 0xC2 then ([], [replChar])
  else if b ≤ 0xF4 then ([b], [])
  else ([], [replChar])

/-- Decode one byte given the pending bytes of an incomplete sequence. -/
def utf8Step (pend : List Nat) (b : Nat) : List Nat × List Char :=
  match pend with
  | [] => utf8Fresh b
  | [l] =>
    if cont2OK l b then
      if l ≤ 0xDF then ([], [Char.ofNat ((l - 0xC0) * 0x40 + (b - 0x80))])
      else ([l, b], [])
    else
      let r := utf8Fresh b
      (r.1, replChar :: r.2)
  | [l, b2] =>
    if contByte b then
      if l ≤ 0xEF then
        ([], [Char.ofNat ((l - 0xE0) * 0x1000 + (b2 - 0x80) * 0x40 + (b - 0x80))])
      else ([l, b2, b], [])
    else
      let r := utf8Fresh b
      (r.1, replChar :: r.2)
  | [l, b2, b3] =>
    if contByte b then
      ([], [Char.ofNat ((l - 0xF0) * 0x40000 + (b2 - 0x80) * 0x1000 +
                        (b3 - 0x80) * 0x40 + (b - 0x80))])
    else
      let r := utf8Fresh b
      (r.1, replChar :: r.2)
  | _ => ([], [])

/-- Run the streaming decoder over a list of bytes, returning the final
pending state and the characters produced. -/
def utf8Run (p : List Nat) : List Nat → List Nat × List Char
  | [] => (p, [])
  | b :: bs =>
    let r1 := utf8Step p b
    let r2 := utf8Run r1.1 bs
    (r2.1, r1.2 ++ r2.2)

/-- The text produced by decoding a byte sequence from the initial state.
(The code never flushes the decoder, so bytes still pending at end of stream
produce nothing.) -/
def decodedText (bs : List Nat) : List Char := (utf8Run [] bs).2

/-! ## The decode loop of `chatStreamApi`

Per chunk: `buffer += decoder.decode(value, {stream: true})`;
`const parts = buffer.split("\n\n"); buffer = parts.pop() || "";`
and every element remaining in `parts` is a complete frame. -/

structure DecLoop where
  pend : List Nat
  buf : List Char
deriving DecidableEq

/-- Process one chunk of bytes: decode, append to the buffer, split on the
terminator, keep the last segment as the new buffer and emit the rest as
complete frames. -/
def procChunk (st : DecLoop) (bytes : List Nat) : DecLoop × List (List Char) :=
  let r := utf8Run st.pend bytes
  let parts := splitOnTerm (st.buf ++ r.2)
  (⟨r.1, (parts.getLast?).getD []⟩, parts.dropLast)

/-- Process a list of chunks, concatenating the frames each chunk emits. -/
def procChunks (st : DecLoop) : List (List Nat) → DecLoop × List (List Char)
  | [] => (st, [])
  | c :: cs =>
    let r := procChunk st c
    let r2 := procChunks r.1 cs
    (r2.1, r.2 ++ r2.2)

/-- The complete frames the decode loop of `chatStreamApi` emits, in order,
for a stream delivered as the given chunks. -/
def chatStreamFrames (chunks : List (List Nat)) : List (List Char) :=
  (procChunks ⟨[], []⟩ chunks).2

/-! ## `JSON.parse`

A parsed JSON value.  Numbers are kept as their source lexeme: no claim
observes a numeric value, only string-valued fields, and keeping the lexeme
avoids attributing floating-point rounding to the program.  Objects keep
their members in source order; property lookup takes the last binding of a
key, as `JSON.parse` does for duplicate keys. -/

inductive Json where
  | null
  | boolean (b : Bool)
  | number (lexeme : List Char)
  | str (s : List Char)
  | arr (items : List Json)
  | obj (fields : List (List Char × Json))

/-- JSON insignificant whitespace: space, tab, line feed, carriage return. -/
def jsonWs (c : Char) : Bool := c = ' ' || c = '\t' || c = '\n' || c = '\r'

def skipWs (s : List Char) : List Char := s.dropWhile jsonWs

def hexVal (c : Char) : Option Nat :=
  if '0' ≤ c ∧ c ≤ '9' then some (c.toNat - '0'.toNat)
  else if 'a' ≤ c ∧ c ≤ 'f' then some (c.toNat - 'a'.toNat + 10)
  else if 'A' ≤ c ∧ c ≤ 'F' then some (c.toNat - 'A'.toNat + 10)
  else none

def hex4 (h1 h2 h3 h4 : Char) : Option Nat :=
  match hexVal h1, hexVal h2, hexVal h3, hexVal h4 with
  | some a, some b, some c, some d => some (a * 0x1000 + b * 0x100 + c * 0x10 + d)
  | _, _, _, _ => none

def escChar (c : Char) : Option Char :=
  if c = '"' then some '"'
  else if c = '\\' then some '\\'
  else if c = '/' then some '/'
  else if c = 'b' then some (Char.ofNat 0x8)
  else if c = 'f' then some (Char.ofNat 0xC)
  else if c = 'n' then some '\n'
  else if c = 'r' then some '\r'
  else if c = 't' then some '\t'
  else none

/-- Parse the body of a JSON string after the opening quote, up to and past
the closing quote.  A surrogate pair in `\uXXXX` escapes combines into one
character; a lone surrogate (legal for `JSON.parse`, but not a scalar value)
is modelled as U+FFFD, which no claim observes.  `fuel` only bounds the
recursion; every step consumes at least one input character, so callers pass
`length + 1` and the bound is never reached on any input. -/
def parseStrBody : Nat → List Char → Option (List Char × List Char)
  | 0, _ => none
  | Nat.succ _, [] => none
  | Nat.succ fuel, c :: rest =>
    if c = '"' then some ([], rest)
    else if c = '\\' then
      match rest with
      | [] => none
      | e :: rest2 =>
        if e = 'u' then
          match rest2 with
          | h1 :: h2 :: h3 :: h4 :: rest3 =>
            match hex4 h1 h2 h3 h4 with
            | none => none
            | some cu =>
              if 0xD800 ≤ cu ∧ cu ≤ 0xDBFF then
                match rest3 with
                | '\\' :: 'u' :: h5 :: h6 :: h7 :: h8 :: rest4 =>
                  match hex4 h5 h6 h7 h8 with
                  | some cu2 =>
                    if 0xDC00 ≤ cu2 ∧ cu2 ≤ 0xDFFF then
                      match parseStrBody fuel rest4 with
                      | some (cs, r) =>
                        some (Char.ofNat (0x10000 + (cu - 0xD800) * 0x400 +
                              (cu2 - 0xDC00)) :: cs, r)
                      | none => none
                    else
                      match parseStrBody fuel rest3 with
                      | some (cs, r) => some (replChar :: cs, r)
                      | none => none
                  | none =>
                    match parseStrBody fuel rest3 with
                    | some (cs, r) => some (replChar :: cs, r)
                    | none => none
                | _ =>
                  match parseStrBody fuel rest3 with
                  | some (cs, r) => some (replChar :: cs, r)
                  | none => none
              else if 0xDC00 ≤ cu ∧ cu ≤ 0xDFFF then
                match parseStrBody fuel rest3 with
                | some (cs, r) => some (replChar :: cs, r)
                | none => none
              else
                match parseStrBody fuel rest3 with
                | some (cs, r) => some (Char.ofNat cu :: cs, r)
                | none => none
          | _ => none
        else
          match escChar e with
          | some d =>
            match parseStrBody fuel rest2 with
            | some (cs, r) => some (d :: cs, r)
            | none => none
          | none => none
    else if c.toNat < 0x20 then none
    else
      match parseStrBody fuel rest with
      | some (cs, r) => some (c :: cs, r)
      | none => none

def isDigitCh (c : Char) : Bool := '0' ≤ c && c ≤ '9'

/-- The optional fraction part `(. [0-9]+)?` of a JSON number. -/
def parseFrac (s : List Char) : Option (List Char × List Char) :=
  match s with
  | '.' :: r2 =>
    if (r2.takeWhile isDigitCh) = [] then none
    else some ('.' :: r2.takeWhile isDigitCh, r2.dropWhile isDigitCh)
  | _ => some ([], s)

/-- The optional exponent part `([eE][-+]? [0-9]+)?` of a JSON number. -/
def parseExp (s : List Char) : Option (List Char × List Char) :=
  match s with
  | e :: r2 =>
    if e = 'e' ∨ e = 'E' then
      let p :=
        match r2 with
        | '+' :: r4 => ((['+'] : List Char), r4)
        | '-' :: r4 => ((['-'] : List Char), r4)
        | _ => (([] : List Char), r2)
      if (p.2.takeWhile isDigitCh) = [] then none
      else some (e :: p.1 ++ p.2.takeWhile isDigitCh, p.2.dropWhile isDigitCh)
    else some ([], s)
  | [] => some ([], s)

/-- Parse a JSON number, returning its lexeme and the rest of the input.
Grammar: `-? (0 | [1-9][0-9]*) (. [0-9]+)? ([eE][-+]? [0-9]+)?`. -/
def parseNumber (s : List Char) : Option (List Char × List Char) :=
  let p :=
    match s with
    | '-' :: r => ((['-'] : List Char), r)
    | _ => (([] : List Char), s)
  match p.2 with
  | [] => none
  | d :: r =>
    if ¬ isDigitCh d then none
    else
      let q :=
        if d = '0' then (([] : List Char), r)
        else (r.takeWhile isDigitCh, r.dropWhile isDigitCh)
      match parseFrac q.2 with
      | none => none
      | some (fracPart, s3) =>
        match parseExp s3 with
        | none => none
        | some (expPart, s4) =>
          some (p.1 ++ d :: q.1 ++ fracPart ++ expPart, s4)

mutual

/-- Parse one JSON value at the head of the input (whitespace already
skipped).  `fuel` only bounds recursion depth; `jsonParse` supplies more fuel
than any input of its length can consume. -/
def parseVal : Nat → List Char → Option (Json × List Char)
  | 0, _ => none
  | Nat.succ fuel, s =>
    match s with
    | [] => none
    | c :: rest =>
      if c = '{' then
        match skipWs rest with
        | '}' :: r => some (.obj [], r)
        | s2 => parseMembers fuel s2 []
      else if c = '[' then
        match skipWs rest with
        | ']' :: r => some (.arr [], r)
        | s2 => parseElems fuel s2 []
      else if c = '"' then
        match parseStrBody (rest.length + 1) rest with
        | some (cs, r) => some (.str cs, r)
        | none => none
      else if c = 't' then
        if ['r', 'u', 'e'].isPrefixOf rest then some (.boolean true, rest.drop 3)
        else none
      else if c = 'f' then
        if ['a', 'l', 's', 'e'].isPrefixOf rest then some (.boolean false, rest.drop 4)
        else none
      else if c = 'n' then
        if ['u', 'l', 'l'].isPrefixOf rest then some (.null, rest.drop 3)
        else none
      else if c = '-' ∨ isDigitCh c then
        match parseNumber s with
        | some (lex, r) => some (.number lex, r)
        | none => none
      else none

/-- Parse the members of an object after `{` (first member's leading
whitespace already skipped), accumulating bindings in source order. -/
def parseMembers : Nat → List Char → List (List Char × Json) →
    Option (Json × List Char)
  | 0, _, _ => none
  | Nat.succ fuel, s, acc =>
    match s with
    | '"' :: rest =>
      match parseStrBody (rest.length + 1) rest with
      | none => none
      | some (key, r1) =>
        match skipWs r1 with
        | ':' :: r2 =>
          match parseVal fuel (skipWs r2) with
          | none => none
          | some (v, r3) =>
            match skipWs r3 with
            | ',' :: r4 => parseMembers fuel (skipWs r4) (acc ++ [(key, v)])
            | '}' :: r4 => some (.obj (acc ++ [(key, v)]), r4)
            | _ => none
        | _ => none
    | _ => none

/-- Parse the elements of an array after `[` (first element's leading
whitespace already skipped). -/
def parseElems : Nat → List Char → List Json → Option (Json × List Char)
  | 0, _, _ => none
  | Nat.succ fuel, s, acc =>
    match parseVal fuel s with
    | none => none
    | some (v, r) =>
      match skipWs r with
      | ',' :: r2 => parseElems fuel (skipWs r2) (acc ++ [v])
      | ']' :: r2 => some (.arr (acc ++ [v]), r2)
      | _ => none

end

/-- `JSON.parse`: a whole-input JSON text, with leading and trailing
whitespace allowed; `none` models a thrown `SyntaxError`.  Each unit of fuel
consumed beyond the first is preceded by consuming at least one input
character, at most doubled by the array case, so `2·length + 4` is never
exhausted on an input `JSON.parse` accepts. -/
def jsonParse (s : List Char) : Option Json :=
  match parseVal (2 * s.length + 4) (skipWs s) with
  | some (v, r) => if skipWs r = [] then some v else none
  | none => none

/-- Property access `obj[key]`: on a non-object, `undefined` (`none`); on an
object, the last binding of the key, matching `JSON.parse` duplicate-key
behaviour. -/
def getProp (j : Json) (key : List Char) : Option Json :=
  match j with
  | .obj fields => fields.foldl (fun acc kv => if kv.1 = key then some kv.2 else acc) none
  | _ => none

/-! ## The event parser of `chatStreamApi`

For each complete frame `part`:
```
if (part.startsWith("data:")) {
  try {
    const json = JSON.parse(part.replace("data: ", ""));
    if (json.type === "text")      onChunk(json.content);
    else if (json.type === "end")  onComplete();
  } catch (err) { console.error("Parse error", err); }
}
```
-/

def dataColon : List Char := ['d', 'a', 't', 'a', ':']
def dataColonSpace : List Char := ['d', 'a', 't', 'a', ':', ' ']
def typeKey : List Char := ['t', 'y', 'p', 'e']
def contentKey : List Char := ['c', 'o', 'n', 't', 'e', 'n', 't']
def textLit : List Char := ['t', 'e', 'x', 't']
def endLit : List Char := ['e', 'n', 'd']

/-- `s.replace(pat, "")` with a string pattern: remove the leftmost
occurrence of `pat`, if any. -/
def replFirst (pat : List Char) : List Char → List Char
  | [] => []
  | c :: r =>
    if pat.isPrefixOf (c :: r) then (c :: r).drop pat.length
    else c :: replFirst pat r

/-- Whether `pat` occurs as a contiguous sublist of `s` (so whether
`s.replace(pat, "")` changes `s`). -/
def hasOccur (pat : List Char) : List Char → Bool
  | [] => pat.isPrefixOf []
  | c :: r => pat.isPrefixOf (c :: r) || hasOccur pat r

/-- An observable invocation of one of the hooks passed to `chatStreamApi`:
`onChunk(json.content)` (whose argument is `undefined`, modelled `none`, when
the object has no `content` property), `onComplete()`, or
`onError(err.message)`. -/
inductive Event where
  | chunk (content : Option Json)
  | complete
  | error (msg : List Char)

/-- Dispatch on the parsed frame payload.  `json.type` on `null` throws a
`TypeError`, which the surrounding `try` swallows, so `null` emits nothing;
on any other non-object the property is `undefined` and matches neither
branch. -/
def evalJson (j : Json) : List Event :=
  match j with
  | .null => []
  | _ =>
    match getProp j typeKey with
    | some (.str t) =>
      if t = textLit then [Event.chunk (getProp j contentKey)]
      else if t = endLit then [Event.complete]
      else []
    | _ => []

/-- The hook invocations one complete frame produces. -/
def handleFrame (part : List Char) : List Event :=
  if dataColon.isPrefixOf part then
    match jsonParse (replFirst dataColonSpace part) with
    | some j => evalJson j
    | none => []
  else []

/-- The hook invocations a list of complete frames produces, in order. -/
def handleFrames : List (List Char) → List Event
  | [] => []
  | p :: ps => handleFrame p ++ handleFrames ps

/-! ## `chatStreamApi` -/

/-- The response to the streaming POST, as `fetch` presents it: a status and
an optional body, the body delivered as a list of byte chunks. -/
structure StreamResponse where
  status : Nat
  body : Option (List (List Nat))

def noBodyMsg : List Char := "No response body".toList
def notAuthMsg : List Char := "Not Authenticated".toList
def streamFailMsg : List Char := "Streaming chat failed".toList

/-- The ordered hook invocations of `chatStreamApi` on a response.  Mirrors
the source: missing body, then 403, then any other non-ok status each throw,
and the surrounding catch reports the thrown message through `onError`;
otherwise the decode loop runs and each complete frame is handled. -/
def chatStreamApi (res : StreamResponse) : List Event :=
  match res.body with
  | none => [Event.error noBodyMsg]
  | some chunks =>
    if res.status = 403 then [Event.error notAuthMsg]
    else if ¬ (200 ≤ res.status ∧ res.status ≤ 299) then [Event.error streamFailMsg]
    else handleFrames (chatStreamFrames chunks)

/-! ## The chat slice (`chatSlice.js`) -/

/-- A transcript entry; `finalizeBotMessage` appends
`{type: "bot", llm_response: ...}`. -/
structure Message where
  type : List Char
  llm_response : List Char
deriving DecidableEq

def botLit : List Char := ['b', 'o', 't']

structure HistState where
  chats : List Json
  loading : Bool
  error : Option (List Char)

/-- The chat slice state. `error = none` models `error: null`. -/
structure ChatState where
  messages : List Message
  loading : Bool
  error : Option (List Char)
  sessionId : List Char
  currentBotMessage : List Char
  chatHistory : HistState

/-- ECMAScript `WhiteSpace` or `LineTerminator`, the characters
`String.prototype.trim` removes. -/
def jsWsChar (c : Char) : Bool :=
  let n := c.toNat
  n = 0x9 || n = 0xA || n = 0xB || n = 0xC || n = 0xD || n = 0x20 ||
  n = 0xA0 || n = 0x1680 || (0x2000 ≤ n && n ≤ 0x200A) || n = 0x2028 ||
  n = 0x2029 || n = 0x202F || n = 0x205F || n = 0x3000 || n = 0xFEFF

/-- `String.prototype.trim`. -/
def jsTrim (s : List Char) : List Char :=
  ((s.dropWhile jsWsChar).reverse.dropWhile jsWsChar).reverse

def setMessages (s : ChatState) (p : List Message) : ChatState :=
  { s with messages := p }

def addMessage (s : ChatState) (m : Message) : ChatState :=
  { s with messages := s.messages ++ [m] }

def setSession (s : ChatState) (p : List Char) : ChatState :=
  { s with sessionId := p }

def clearMessages (s : ChatState) : ChatState :=
  { s with messages := [], currentBotMessage := [], error := none }

def appendBotMessage (s : ChatState) (p : List Char) : ChatState :=
  { s with currentBotMessage := s.currentBotMessage ++ p }

/-- `finalizeBotMessage`: when the trimmed accumulator is truthy (non-empty),
push a bot message carrying the (untrimmed) accumulator and clear it; in
every case set `loading` to `false`. -/
def finalizeBotMessage (s : ChatState) : ChatState :=
  let s1 :=
    if jsTrim s.currentBotMessage ≠ [] then
      { s with
        messages := s.messages ++ [{ type := botLit, llm_response := s.currentBotMessage }],
        currentBotMessage := [] }
    else s
  { s1 with loading := false }

def setError (s : ChatState) (p : List Char) : ChatState :=
  { s with error := some p, loading := false }

/-! ## Lemmas about the splitter -/

theorem splitOnTerm_ne_nil (s : List Char) : splitOnTerm s ≠ [] := by
  match s with
  | [] => simp [splitOnTerm]
  | [c] => simp [splitOnTerm]
  | c1 :: c2 :: rest =>
    simp only [splitOnTerm]
    split
    · simp
    · split <;> simp

/-- Unfolding `splitOnTerm` one character at a time, whenever that character
does not begin an occurrence of the terminator. -/
theorem splitOnTerm_cons (c : Char) (l : List Char)
    (h : ¬(c = '\n' ∧ l.head? = some '\n')) :
    splitOnTerm (c :: l) =
      match splitOnTerm l with
      | [] => [[c]]
      | s :: ss => (c :: s) :: ss := by
  match l with
  | [] => simp [splitOnTerm]
  | d :: ds =>
    have hd : ¬(c = '\n' ∧ d = '\n') := by simpa using h
    simp only [splitOnTerm, if_neg hd]

/-- The first segment of a split starts with the first character, when that
character does not begin a terminator occurrence. -/
theorem splitOnTerm_head (c : Char) (l : List Char)
    (h : ¬(c = '\n' ∧ l.head? = some '\n')) :
    ∃ t ts, splitOnTerm (c :: l) = (c :: t) :: ts := by
  rw [splitOnTerm_cons c l h]
  rcases hs : splitOnTerm l with _ | ⟨s, ss⟩
  · exact absurd hs (splitOnTerm_ne_nil l)
  · exact ⟨s, ss, rfl⟩

/-- A split with a single segment: the segment starts with the first
character of the input. -/
theorem splitOnTerm_single (c : Char) (l : List Char) (s : List Char)
    (h : splitOnTerm (c :: l) = [s]) : ∃ t, s = c :: t := by
  rcases l with _ | ⟨r, rs⟩
  · simp only [splitOnTerm] at h
    injection h with h1 _
    exact ⟨[], h1.symm⟩
  · by_cases hsep : c = '\n' ∧ r = '\n'
    · exfalso
      have e : splitOnTerm (c :: r :: rs) = [] :: splitOnTerm rs := by
        simp only [splitOnTerm]
        rw [if_pos hsep]
      rw [e] at h
      injection h with _ h2
      exact splitOnTerm_ne_nil rs h2
    · obtain ⟨t, ts, hh⟩ := splitOnTerm_head c (r :: rs) (by simpa using hsep)
      rw [hh] at h
      injection h with h1 _
      exact ⟨t, h1.symm⟩

/-- Splitting composes with appending: splitting `x ++ y` yields the
complete segments of `x` followed by the split of the last (possibly
partial) segment of `x` prepended to `y`.  This is exactly the shape of the
decode loop's buffer handling. -/
theorem splitOnTerm_append (x y : List Char) :
    splitOnTerm (x ++ y) =
      (splitOnTerm x).dropLast ++
        splitOnTerm ((splitOnTerm x).getLast?.getD [] ++ y) := by
  induction x using splitOnTerm.induct with
  | case1 => simp [splitOnTerm]
  | case2 c => simp [splitOnTerm]
  | case3 c1 c2 rest h ih =>
    have e1 : splitOnTerm (c1 :: c2 :: rest) = [] :: splitOnTerm rest := by
      simp only [splitOnTerm]
      rw [if_pos h]
    have e2 : splitOnTerm ((c1 :: c2 :: rest) ++ y) = [] :: splitOnTerm (rest ++ y) := by
      show splitOnTerm (c1 :: c2 :: (rest ++ y)) = _
      simp only [splitOnTerm]
      rw [if_pos h]
    rw [e2, ih, e1]
    rcases hs : splitOnTerm rest with _ | ⟨s, ss⟩
    · exact absurd hs (splitOnTerm_ne_nil rest)
    · simp
  | case4 c1 c2 rest h heq ih => exact absurd heq (splitOnTerm_ne_nil _)
  | case5 c1 c2 rest h s ss heq ih =>
    have hcons : splitOnTerm ((c1 :: c2 :: rest) ++ y) =
        match splitOnTerm ((c2 :: rest) ++ y) with
        | [] => [[c1]]
        | u :: us => (c1 :: u) :: us := by
      show splitOnTerm (c1 :: (c2 :: rest ++ y)) = _
      exact splitOnTerm_cons c1 _ (by simpa using h)
    have e1 : splitOnTerm (c1 :: c2 :: rest) = (c1 :: s) :: ss := by
      simp only [splitOnTerm]
      rw [if_neg h, heq]
    rw [hcons, ih, heq, e1]
    rcases ss with _ | ⟨a, as⟩
    · obtain ⟨t, ht⟩ := splitOnTerm_single c2 rest s heq
      have hrhs : splitOnTerm ((c1 :: s) ++ y) =
          match splitOnTerm (s ++ y) with
          | [] => [[c1]]
          | u :: us => (c1 :: u) :: us := by
        show splitOnTerm (c1 :: (s ++ y)) = _
        refine splitOnTerm_cons c1 _ ?_
        subst ht
        simpa using h
      simp only [List.dropLast_single, List.getLast?_singleton, Option.getD_some,
        List.nil_append]
      rw [hrhs]
    · simp only [List.dropLast_cons₂, List.getLast?_cons_cons, List.cons_append]

/-! ## Lemmas about the chunk pipeline -/

/-- The streaming decoder is a fold over bytes, so decoding composes over
concatenation of byte sequences. -/
theorem utf8Run_append (p : List Nat) (a b : List Nat) :
    utf8Run p (a ++ b) =
      ((utf8Run (utf8Run p a).1 b).1,
       (utf8Run p a).2 ++ (utf8Run (utf8Run p a).1 b).2) := by
  induction a generalizing p with
  | nil => simp [utf8Run]
  | cons x xs ih =>
    show ((utf8Run (utf8Step p x).1 (xs ++ b)).1,
          (utf8Step p x).2 ++ (utf8Run (utf8Step p x).1 (xs ++ b)).2) = _
    rw [ih]
    show _ = ((utf8Run (utf8Run (utf8Step p x).1 xs).1 b).1,
          ((utf8Step p x).2 ++ (utf8Run (utf8Step p x).1 xs).2) ++
            (utf8Run (utf8Run (utf8Step p x).1 xs).1 b).2)
    rw [List.append_assoc]

/-- Processing one chunk composes over concatenation of its bytes: the
buffer hand-off through `parts.pop()` makes the frames of `a ++ b` the
frames of `a` followed by the frames of `b` from the carried-over state. -/
theorem procChunk_append (st : DecLoop) (a b : List Nat) :
    procChunk st (a ++ b) =
      ((procChunk (procChunk st a).1 b).1,
       (procChunk st a).2 ++ (procChunk (procChunk st a).1 b).2) := by
  simp only [procChunk, utf8Run_append]
  have hsplit := splitOnTerm_append (st.buf ++ (utf8Run st.pend a).2)
    (utf8Run (utf8Run st.pend a).1 b).2
  rw [← List.append_assoc, hsplit]
  have hne := splitOnTerm_ne_nil
    ((splitOnTerm (st.buf ++ (utf8Run st.pend a).2)).getLast?.getD [] ++
      (utf8Run (utf8Run st.pend a).1 b).2)
  rw [List.dropLast_append_of_ne_nil _ hne, List.getLast?_append]
  rcases hs : splitOnTerm
      ((splitOnTerm (st.buf ++ (utf8Run st.pend a).2)).getLast?.getD [] ++
        (utf8Run (utf8Run st.pend a).1 b).2) with _ | ⟨s, ss⟩
  · exact absurd hs hne
  · simp [List.getLast?_cons]

/-- Processing a nonempty chunk list is the same as processing the single
concatenated chunk. -/
theorem procChunks_cons_join (st : DecLoop) (c : List Nat) (cs : List (List Nat)) :
    procChunks st (c :: cs) = procChunk st (List.flatten (c :: cs)) := by
  induction cs generalizing st c with
  | nil => simp [procChunks, List.flatten]
  | cons d ds ih =>
    show (let r := procChunk st c
          let r2 := procChunks r.1 (d :: ds)
          (r2.1, r.2 ++ r2.2)) = _
    simp only [ih]
    have : List.flatten (c :: d :: ds) = c ++ List.flatten (d :: ds) := by simp [List.flatten]
    rw [this, procChunk_append]

/-- The frames of the decode loop depend only on the concatenated bytes, and
equal all segments but the last of the split of the decoded text. -/
theorem chatStreamFrames_eq (chunks : List (List Nat)) :
    chatStreamFrames chunks =
      (splitOnTerm (decodedText (List.flatten chunks))).dropLast := by
  rcases chunks with _ | ⟨c, cs⟩
  · simp [chatStreamFrames, procChunks, decodedText, utf8Run, splitOnTerm]
  · show (procChunks ⟨[], []⟩ (c :: cs)).2 = _
    rw [procChunks_cons_join]
    simp [procChunk, decodedText]

/-- `handleFrames` distributes over frame-list concatenation. -/
theorem handleFrames_append (a b : List (List Char)) :
    handleFrames (a ++ b) = handleFrames a ++ handleFrames b := by
  induction a with
  | nil => simp [handleFrames]
  | cons p ps ih => simp [handleFrames, ih]

/-! ## Lemmas about the event parser -/

/-- `replace` with a pattern that does not occur leaves the string
unchanged. -/
theorem replFirst_no_occur (pat : List Char) (s : List Char)
    (h : hasOccur pat s = false) : replFirst pat s = s := by
  induction s with
  | nil => simp [replFirst]
  | cons c r ih =>
    simp only [hasOccur, Bool.or_eq_false_iff] at h
    simp only [replFirst, h.1, Bool.false_eq_true, if_false]
    rw [ih h.2]

/-- `JSON.parse` rejects any text starting with the letter `d` (after no
leading whitespace), since no JSON value starts with it. -/
theorem jsonParse_d (t : List Char) : jsonParse ('d' :: t) = none := rfl

/-- A `type` or `content` lookup only succeeds on an object, and an object
whose `type` is the string `"text"` sends `json.content` to `onChunk`. -/
theorem evalJson_text (j : Json)
    (htype : getProp j typeKey = some (.str textLit)) :
    evalJson j = [Event.chunk (getProp j contentKey)] := by
  cases j with
  | null => simp [getProp] at htype
  | boolean b => simp [getProp] at htype
  | number l => simp [getProp] at htype
  | str s2 => simp [getProp] at htype
  | arr a => simp [getProp] at htype
  | obj f =>
    simp only [evalJson]
    rw [htype]
    simp

/-- An object whose `type` is the string `"end"` invokes `onComplete`. -/
theorem evalJson_end (j : Json)
    (htype : getProp j typeKey = some (.str endLit)) :
    evalJson j = [Event.complete] := by
  cases j with
  | null => simp [getProp] at htype
  | boolean b => simp [getProp] at htype
  | number l => simp [getProp] at htype
  | str s2 => simp [getProp] at htype
  | arr a => simp [getProp] at htype
  | obj f =>
    simp only [evalJson]
    rw [htype]
    simp [textLit, endLit]

/-- A list is a prefix of itself followed by anything. -/
theorem isPrefixOf_self_append (l t : List Char) : l.isPrefixOf (l ++ t) = true := by
  induction l with
  | nil => simp
  | cons c r ih => simp [List.isPrefixOf, ih]

/-- `replace` removes the pattern when the string starts with it. -/
theorem replFirst_self_append (pat t : List Char) (h : pat ≠ []) :
    replFirst pat (pat ++ t) = t := by
  match pat with
  | [] => exact absurd rfl h
  | c :: r =>
    have hp : (c :: r).isPrefixOf (c :: (r ++ t)) = true := isPrefixOf_self_append (c :: r) t
    show replFirst (c :: r) (c :: (r ++ t)) = t
    simp only [replFirst, hp, if_true]
    show (r ++ t).drop r.length = t
    exact List.drop_left r t

/-- Folding `appendBotMessage` over a list of deltas concatenates them, in
arrival order, onto the accumulator. -/
theorem appendBot_foldl (s : ChatState) (ds : List (List Char)) :
    (List.foldl appendBotMessage s ds).currentBotMessage =
      s.currentBotMessage ++ ds.flatten := by
  induction ds generalizing s with
  | nil => simp
  | cons d dss ih =>
    show (List.foldl appendBotMessage (appendBotMessage s d) dss).currentBotMessage = _
    rw [ih]
    simp [appendBotMessage]

/-! ## The claims -/

/-- C1: Chunk-boundary invariance of the Frame Decoder: the frames the
decode loop of `chatStreamApi` emits, and their order, depend only on the
concatenation of the delivered byte chunks — any two ways of splitting the
same payload bytes into chunks (including splits inside a multi-byte UTF-8
character, handled by the streaming decoder state, and splits between the
two terminator characters, handled by the carried buffer) emit the same
frames in the same order. -/
theorem spec_c1_chunk_invariance (cs1 cs2 : List (List Nat))
    (h : cs1.flatten = cs2.flatten) :
    chatStreamFrames cs1 = chatStreamFrames cs2 := by
  rw [chatStreamFrames_eq, chatStreamFrames_eq, h]

/-- Witness for C1 at a concrete payload `"é\n\ned"` (the two-byte character
`é` split across chunks, and the two terminator characters split across
chunks) against the same bytes in a single chunk. -/
theorem spec_c1_witness :
    List.flatten [[0xC3], [0xA9, 0x0A], [0x0A, 0x65], [0x64]] =
      List.flatten [[0xC3, 0xA9, 0x0A, 0x0A, 0x65, 0x64]] ∧
    chatStreamFrames [[0xC3], [0xA9, 0x0A], [0x0A, 0x65], [0x64]] =
      chatStreamFrames [[0xC3, 0xA9, 0x0A, 0x0A, 0x65, 0x64]] :=
  ⟨by decide, spec_c1_chunk_invariance _ _ (by decide)⟩

/-- C2 counterexample: the frame `data:{"type":"text","content":"hi"}`
(no space after `data:`) invokes no hook at all — `part.replace("data: ",
"")` finds no occurrence of `"data: "`, so `JSON.parse` is applied to the
frame still carrying the `data:` prefix and throws — while the same frame
with the space invokes the content-delta hook once.  The two forms are not
handled identically, refuting the claim. -/
theorem spec_c2_counterexample :
    handleFrame ("data:\x7b\"type\":\"text\",\"content\":\"hi\"\x7d".toList) = [] ∧
    handleFrame ("data: \x7b\"type\":\"text\",\"content\":\"hi\"\x7d".toList) =
      [Event.chunk (some (.str ['h', 'i']))] :=
  ⟨rfl, rfl⟩

/-- C2 amended: a complete frame `data: ` (with the single space) followed
by text that JSON-parses to an object whose `type` property is the string
`"text"` and whose `content` property is the string `s` invokes the
content-delta hook exactly once with `s`.  Without the space the prefix is
not stripped: unless the six-character pattern `data: ` occurs somewhere
later inside the frame, the frame is left unchanged, its JSON parse fails
(it still begins with `data:`), and no hook is invoked. -/
theorem spec_c2_data_space (rest : List Char) (j : Json) (s : List Char)
    (hp : jsonParse rest = some j)
    (ht : getProp j typeKey = some (.str textLit))
    (hc : getProp j contentKey = some (.str s)) :
    handleFrame (dataColonSpace ++ rest) = [Event.chunk (some (.str s))] ∧
    (∀ rest2 : List Char, hasOccur dataColonSpace (dataColon ++ rest2) = false →
      handleFrame (dataColon ++ rest2) = []) := by
  constructor
  · have hpre : dataColon.isPrefixOf (dataColonSpace ++ rest) = true := by
      have e : dataColonSpace ++ rest = dataColon ++ (' ' :: rest) := by
        simp [dataColonSpace, dataColon]
      rw [e]
      exact isPrefixOf_self_append _ _
    have hrepl : replFirst dataColonSpace (dataColonSpace ++ rest) = rest :=
      replFirst_self_append _ _ (by decide)
    simp only [handleFrame, hpre, if_true]
    rw [hrepl, hp]
    show evalJson j = _
    rw [evalJson_text j ht, hc]
  · intro rest2 hno
    have hpre : dataColon.isPrefixOf (dataColon ++ rest2) = true :=
      isPrefixOf_self_append _ _
    have hrepl := replFirst_no_occur dataColonSpace (dataColon ++ rest2) hno
    have hd : jsonParse (dataColon ++ rest2) = none := jsonParse_d _
    simp only [handleFrame, hpre, if_true]
    rw [hrepl, hd]

/-- Witness for C2 (amended) at the concrete frame
`data: {"type":"text","content":"hi"}` and, for the second part, the
space-less `data:{"type":"text","content":"hi"}`. -/
theorem spec_c2_witness :
    handleFrame (dataColonSpace ++ "\x7b\"type\":\"text\",\"content\":\"hi\"\x7d".toList) =
      [Event.chunk (some (.str ['h', 'i']))] ∧
    handleFrame (dataColon ++ "\x7b\"type\":\"text\",\"content\":\"hi\"\x7d".toList) = [] := by
  have h := spec_c2_data_space ("\x7b\"type\":\"text\",\"content\":\"hi\"\x7d".toList)
    (.obj [(typeKey, .str textLit), (contentKey, .str ['h', 'i'])]) ['h', 'i']
    (by rfl) (by rfl) (by rfl)
  exact ⟨h.1, h.2 _ (by decide)⟩

/-- C3: a 403 response (with the body stream `fetch` always attaches to a
403) reports exactly one error, the distinguished `Not Authenticated`
message, through `onError`, and invokes no content-delta or completion
hook. -/
theorem spec_c3_auth_error (res : StreamResponse) (chunks : List (List Nat))
    (hbody : res.body = some chunks) (hstatus : res.status = 403) :
    chatStreamApi res = [Event.error notAuthMsg] := by
  simp [chatStreamApi, hbody, hstatus]

/-- Witness for C3 at a concrete 403 response with a one-chunk body. -/
theorem spec_c3_witness :
    chatStreamApi ⟨403, some [[0x41]]⟩ = [Event.error notAuthMsg] :=
  spec_c3_auth_error _ [[0x41]] rfl rfl

/-- C4: `finalizeBotMessage` always clears `loading`; it appends exactly one
bot message carrying the accumulator — which is the concatenation, in
arrival order, of all deltas folded in by `appendBotMessage` — precisely
when the trimmed accumulator is non-empty, and leaves the transcript
unchanged when the trimmed accumulator is empty. -/
theorem spec_c4_finalize (s : ChatState) :
    (finalizeBotMessage s).loading = false ∧
    (jsTrim s.currentBotMessage ≠ [] →
      (finalizeBotMessage s).messages =
        s.messages ++ [{ type := botLit, llm_response := s.currentBotMessage }]) ∧
    (jsTrim s.currentBotMessage = [] →
      (finalizeBotMessage s).messages = s.messages) ∧
    (∀ ds : List (List Char),
      (List.foldl appendBotMessage s ds).currentBotMessage =
        s.currentBotMessage ++ ds.flatten) := by
  refine ⟨rfl, fun h => ?_, fun h => ?_, fun ds => appendBot_foldl s ds⟩
  · simp [finalizeBotMessage, h]
  · simp [finalizeBotMessage, h]

/-- Witness for C4 at a concrete state whose accumulator is `"Hello"`,
reached by folding in the deltas `"He"`, `"llo"`. -/
theorem spec_c4_witness :
    (List.foldl appendBotMessage
        ⟨[], true, none, [], [], ⟨[], false, none⟩⟩
        [['H', 'e'], ['l', 'l', 'o']]).currentBotMessage =
      "Hello".toList ∧
    (finalizeBotMessage ⟨[], true, none, [], "Hello".toList, ⟨[], false, none⟩⟩).messages =
      [{ type := botLit, llm_response := "Hello".toList }] ∧
    (finalizeBotMessage ⟨[], true, none, [], "Hello".toList, ⟨[], false, none⟩⟩).loading =
      false := by
  refine ⟨?_, ?_, (spec_c4_finalize _).1⟩
  · rw [(spec_c4_finalize _).2.2.2 [['H', 'e'], ['l', 'l', 'o']]]
    decide
  · rw [(spec_c4_finalize _).2.1 (by decide)]
    decide

/-- C5 counterexample: finalizing with a whitespace-only accumulator `" "`
leaves `currentBotMessage` equal to `" "`, not `""`: the clearing assignment
sits inside the `if (state.currentBotMessage.trim())` branch, which a
whitespace-only accumulator does not enter. -/
theorem spec_c5_counterexample :
    (finalizeBotMessage ⟨[], true, none, [], [' '], ⟨[], false, none⟩⟩).currentBotMessage
      ≠ [] := by decide

/-- C5 amended: after `finalizeBotMessage` the accumulator is empty exactly
when its trimmed content was non-empty (it is then cleared) or it was
already empty; a whitespace-only accumulator is left unchanged. -/
theorem spec_c5_clear_conditional (s : ChatState) :
    (finalizeBotMessage s).currentBotMessage =
      if jsTrim s.currentBotMessage = [] then s.currentBotMessage else [] := by
  by_cases h : jsTrim s.currentBotMessage = []
  · simp [finalizeBotMessage, h]
  · simp [finalizeBotMessage, h]

/-- C6: text still sitting in the decode buffer when the stream ends
produces no frame and no hook invocation: the events of the whole stream
are exactly the events of the complete (terminator-ended) frames — all
segments of the split of the decoded text except the last, which is
discarded. -/
theorem spec_c6_trailing_discarded (chunks : List (List Nat)) :
    handleFrames (chatStreamFrames chunks) =
      handleFrames ((splitOnTerm (decodedText chunks.flatten)).dropLast) := by
  rw [chatStreamFrames_eq]

/-- C7: a complete frame that begins with `data:` but whose payload fails
JSON parsing invokes no hook, and the frames after it still produce their
events, in order, exactly as if the malformed frame were absent. -/
theorem spec_c7_malformed_nonfatal (pre post : List (List Char)) (bad : List Char)
    (hpre : dataColon.isPrefixOf bad = true)
    (hbad : jsonParse (replFirst dataColonSpace bad) = none) :
    handleFrames (pre ++ bad :: post) = handleFrames pre ++ handleFrames post := by
  have hframe : handleFrame bad = [] := by
    simp only [handleFrame, hpre, if_true]
    rw [hbad]
  rw [handleFrames_append]
  show handleFrames pre ++ (handleFrame bad ++ handleFrames post) = _
  rw [hframe, List.nil_append]

/-- Witness for C7: a malformed `data: {oops` frame between two well-formed
frames drops out without affecting them. -/
theorem spec_c7_witness :
    handleFrames (["data: \x7b\"type\":\"text\",\"content\":\"x\"\x7d".toList] ++
        "data: \x7boops".toList :: ["data: \x7b\"type\":\"end\"\x7d".toList]) =
      handleFrames ["data: \x7b\"type\":\"text\",\"content\":\"x\"\x7d".toList] ++
        handleFrames ["data: \x7b\"type\":\"end\"\x7d".toList] :=
  spec_c7_malformed_nonfatal _ _ _ (by decide) (by rfl)

/-- C8: `clearMessages` empties the transcript, clears the accumulator,
clears the error, and leaves the session id unchanged. -/
theorem spec_c8_clear (s : ChatState) :
    (clearMessages s).messages = [] ∧
    (clearMessages s).currentBotMessage = [] ∧
    (clearMessages s).error = none ∧
    (clearMessages s).sessionId = s.sessionId :=
  ⟨rfl, rfl, rfl, rfl⟩

/-- C9: `setError` stores its payload in `error` and clears `loading`,
leaving the transcript, the accumulator (including any partially
accumulated bot text) and the session id untouched. -/
theorem spec_c9_set_error (s : ChatState) (p : List Char) :
    (setError s p).error = some p ∧
    (setError s p).loading = false ∧
    (setError s p).messages = s.messages ∧
    (setError s p).currentBotMessage = s.currentBotMessage ∧
    (setError s p).sessionId = s.sessionId :=
  ⟨rfl, rfl, rfl, rfl, rfl⟩

/-- C10: completion is not terminal for frame processing: a stream carrying
a `text` frame after an `end` frame invokes the content-delta hook after the
completion hook, and a stream carrying two `end` frames invokes the
completion hook twice. -/
theorem spec_c10_completion_not_terminal :
    chatStreamApi ⟨200, some
        [("data: \x7b\"type\":\"end\"\x7d\n\ndata: \x7b\"type\":\"text\",\"content\":\"a\"\x7d\n\n".toList.map Char.toNat)]⟩ =
      [Event.complete, Event.chunk (some (.str ['a']))] ∧
    chatStreamApi ⟨200, some
        [("data: \x7b\"type\":\"end\"\x7d\n\ndata: \x7b\"type\":\"end\"\x7d\n\n".toList.map Char.toNat)]⟩ =
      [Event.complete, Event.complete] :=
  ⟨rfl, rfl⟩
